import Mathlib

/-!
Verification of the crypto price-alert bot (`src/main.py`).

The embedding models the bot's pure core faithfully:
* `WatchCondition` is the Python tuple `(crypto_id, target_price)` stored in
  the `ALERTS` dictionary; prices are modelled as rationals (Python floats
  stand for real numbers in the spec).
* The `ALERTS` dictionary is an insertion-ordered association list
  `List (ℤ × List WatchCondition)` (Python dicts preserve insertion order;
  Telegram chat ids are integers).
* `get_crypto_price` is modelled over an explicit HTTP outcome
  (`HttpResult`), with the `try/except` block as an `Except` computation.
* `check_alerts` follows the Python loop shape exactly: it iterates over a
  copy of each subscriber's alert list, fetches the price once per alert
  tuple, sends a message and calls `list.remove` (first match by value
  equality) on satisfied alerts, and deletes a chat key whose list is empty
  after the inner loop.  The model additionally threads the list of feed
  calls made, so call-count properties are statable.
-/

/-- A watch condition, Python's `(crypto_id, target_price)` tuple. -/
abbrev WatchCondition := String × ℚ

/-- The `ALERTS` registry: insertion-ordered map chat id → alert list. -/
abbrev Registry := List (ℤ × List WatchCondition)

/-- A trigger event: the data of a `context.bot.send_message` call made by
`check_alerts`, i.e. `(chat_id, crypto_id, observed price)`. -/
abbrev TriggerEvent := ℤ × String × ℚ

/-! ## PriceFeed: `get_crypto_price` -/

/-- Outcome of `requests.get` for one request: a network-level failure
(raising `requests.RequestException`), or a response with an HTTP status
code and a JSON body of shape `{crypto_id: {currency: price}}`. -/
inductive HttpResult where
  | netError
  | ok (status : Nat) (body : List (String × List (String × ℚ)))
deriving DecidableEq, Repr

/-- The exceptions caught by `get_crypto_price`'s `except` clause. -/
inductive ReqError where
  | connection
  | httpStatus
deriving DecidableEq, Repr

/-- `response.raise_for_status()`: raises `requests.HTTPError` (a
`RequestException`) exactly when the status code is in `[400, 600)`. -/
def raise_for_status (status : Nat) : Except ReqError Unit :=
  if 400 ≤ status ∧ status < 600 then .error .httpStatus else .ok ()

/-- The body of `get_crypto_price`'s `try` block:
`requests.get(...)`, `response.raise_for_status()`, then
`data.get(crypto_id, {}).get(currency)`. -/
def get_crypto_price_try (resp : HttpResult) (crypto_id currency : String) :
    Except ReqError (Option ℚ) :=
  match resp with
  | .netError => .error .connection
  | .ok status body =>
    match raise_for_status status with
    | .error e => .error e
    | .ok _ => .ok (((body.lookup crypto_id).getD []).lookup currency)

/-- `get_crypto_price(crypto_id, currency="usd")`: returns the looked-up
price, or `none` when a `RequestException` was caught. -/
def get_crypto_price (resp : HttpResult) (crypto_id : String)
    (currency : String := "usd") : Option ℚ :=
  match get_crypto_price_try resp crypto_id currency with
  | .ok v => v
  | .error _ => none

/-! ## AlertRegistry operations -/

/-- The registry mutation performed by the `/alert` handler:
`if chat_id not in ALERTS: ALERTS[chat_id] = []` followed by
`ALERTS[chat_id].append((crypto_id, target_price))`.  An existing key keeps
its position; a new key is appended at the end (dict insertion order). -/
def addCondition : Registry → ℤ → WatchCondition → Registry
  | [], cid, c => [(cid, [c])]
  | (k, l) :: rest, cid, c =>
    if k = cid then (k, l ++ [c]) :: rest
    else (k, l) :: addCondition rest cid c

/-- Python's `list.remove(a)`: drop the first element equal to `a` (the
caller of this model only removes elements known to be present, so the
missing-element `ValueError` case never arises and is modelled as a no-op). -/
def removeFirst (l : List WatchCondition) (a : WatchCondition) :
    List WatchCondition :=
  match l with
  | [] => []
  | b :: rest => if b = a then rest else b :: removeFirst rest a

/-- The alert list currently stored for a chat id (`[]` when absent). -/
def condsOf (reg : Registry) (cid : ℤ) : List WatchCondition :=
  (reg.lookup cid).getD []

/-! ## AlertEvaluator: `check_alerts` -/

/-- Whether a condition is satisfied under a given feed response function:
`current_price is not None and current_price >= target_price`. -/
def satB (feed : String → Option ℚ) (c : WatchCondition) : Bool :=
  match feed c.1 with
  | some p => decide (c.2 ≤ p)
  | none => false

/-- The trigger event produced for a satisfied condition. -/
def evOf (feed : String → Option ℚ) (cid : ℤ) (c : WatchCondition) :
    TriggerEvent :=
  (cid, c.1, (feed c.1).getD 0)

/-- The inner loop of `check_alerts` for one chat: iterate over a copy
(`alerts[:]`) of the alert list; for each alert fetch the price
(recorded in the call trace), and when it is available and at or above the
target, emit a trigger event and remove the alert (first match by value)
from the live list.  State is `(live list, events so far, calls so far)`. -/
def checkChatLoop (feed : String → Option ℚ) (cid : ℤ) :
    List WatchCondition →
    List WatchCondition × List TriggerEvent × List String →
    List WatchCondition × List TriggerEvent × List String
  | [], st => st
  | a :: rest, (live, evs, calls) =>
    match feed a.1 with
    | some p =>
      if a.2 ≤ p then
        checkChatLoop feed cid rest
          (removeFirst live a, evs ++ [(cid, a.1, p)], calls ++ [a.1])
      else
        checkChatLoop feed cid rest (live, evs, calls ++ [a.1])
    | none => checkChatLoop feed cid rest (live, evs, calls ++ [a.1])

/-- `check_alerts`: for each chat in a snapshot of the registry, run the
inner loop starting from the chat's own list, then delete the chat key when
its list has become empty.  Returns the updated registry, the trigger
events emitted, and the trace of feed calls made, in program order. -/
def check_alerts (feed : String → Option ℚ) :
    Registry → Registry × List TriggerEvent × List String
  | [] => ([], [], [])
  | (cid, alerts) :: rest =>
    let res := checkChatLoop feed cid alerts (alerts, [], [])
    let rest' := check_alerts feed rest
    ((if res.1.isEmpty then rest'.1 else (cid, res.1) :: rest'.1),
     res.2.1 ++ rest'.2.1, res.2.2 ++ rest'.2.2)

/-- The surviving part of one registry entry after a cycle: conditions not
satisfied this cycle, the entry dropped when none survive. -/
def evalEntry (feed : String → Option ℚ) (e : ℤ × List WatchCondition) :
    Option (ℤ × List WatchCondition) :=
  let l := e.2.filter (fun c => !satB feed c)
  if l.isEmpty then none else some (e.1, l)

/-! ## Command handlers -/

/-- Value of a list of decimal digit characters, most significant first. -/
def digitsVal (cs : List Char) : Nat :=
  cs.foldl (fun acc c => 10 * acc + (c.toNat - 48)) 0

/-- Python's `float()` on optionally signed decimal literals (an optional
sign, digits, an optional single decimal point), the forms relevant to the
`/alert` command; any other string raises `ValueError`, modelled as `none`.
(Exponent, `inf`/`nan` and whitespace forms accepted by CPython are not
needed by any property below.) -/
def parseFloat (s : String) : Option ℚ :=
  let cs := s.toList
  let signedRest : Bool × List Char :=
    match cs with
    | '-' :: r => (true, r)
    | '+' :: r => (false, r)
    | r => (false, r)
  let neg := signedRest.1
  match signedRest.2.splitOn '.' with
  | [ip] =>
    if ip ≠ [] ∧ ip.all Char.isDigit then
      some (if neg then -(digitsVal ip : ℚ) else (digitsVal ip : ℚ))
    else none
  | [ip, fp] =>
    if ip ++ fp ≠ [] ∧ (ip ++ fp).all Char.isDigit then
      let v : ℚ := (digitsVal ip : ℚ) + (digitsVal fp : ℚ) / (10 ^ fp.length : ℚ)
      some (if neg then -v else v)
    else none
  | _ => none

/-- Python's `str.lower()`, mapping each character to lower case (the
ASCII mapping of `Char.toLower` suffices for the identifiers involved). -/
def lowerString (s : String) : String :=
  ⟨s.data.map Char.toLower⟩

/-- Replies of the `/alert` handler.  `usage` is the literal reply
`"Usage: /alert <crypto_id> <target_price>"`, `notNumber` is
`"Target price must be a number."`, and `confirmed cid t` is
`"Alert set for {cid.capitalize()} at ${t:.2f}."`. -/
inductive AlertReply where
  | usage
  | notNumber
  | confirmed (crypto_id : String) (target : ℚ)
deriving DecidableEq, Repr

/-- The `/alert <crypto_id> <target_price>` handler: reject unless exactly
two arguments were given; lowercase the instrument and parse the target
with `float`; on success append the condition to the caller's registry
entry and confirm, otherwise reply with an error and leave the registry
untouched. -/
def alert (reg : Registry) (chat_id : ℤ) (args : List String) :
    Registry × AlertReply :=
  match args with
  | [a0, a1] =>
    match parseFloat a1 with
    | none => (reg, .notNumber)
    | some t =>
      (addCondition reg chat_id (lowerString a0, t), .confirmed (lowerString a0) t)
  | _ => (reg, .usage)

/-- Replies of the `/price` handler.  `usage` is
`"Usage: /price <crypto_id>"`, `priceIs cid p` is
`"The current price of {cid.capitalize()} is ${p:.2f}."`, and
`unableToFetch cid` is `"Unable to fetch price for {cid}."`. -/
inductive PriceReply where
  | usage
  | priceIs (crypto_id : String) (p : ℚ)
  | unableToFetch (crypto_id : String)
deriving DecidableEq, Repr

/-- The `/price <crypto_id>` handler: reject unless exactly one argument;
lowercase the instrument, query the feed once and format the reply.  The
second component is the trace of instruments sent to the price feed. -/
def price (feed : String → Option ℚ) (args : List String) :
    PriceReply × List String :=
  match args with
  | [a0] =>
    let crypto_id := lowerString a0
    match feed crypto_id with
    | some p => (.priceIs crypto_id p, [crypto_id])
    | none => (.unableToFetch crypto_id, [crypto_id])
  | _ => (.usage, [])

/-! ## Auxiliary observations used by the stated properties -/

/-- No registry entry maps a chat id to an empty alert list. -/
def noEmptyEntries (reg : Registry) : Bool :=
  reg.all (fun e => !e.2.isEmpty)

/-- A feed equal to `feed` except that instrument `X` is unavailable. -/
def removeInstrument (X : String) (feed : String → Option ℚ) :
    String → Option ℚ :=
  fun i => if i = X then none else feed i

/-- Erase every condition on instrument `X` from the registry, dropping
entries left empty. -/
def dropInstrument (X : String) : Registry → Registry
  | [] => []
  | e :: rest =>
    let l := e.2.filter (fun c => !(c.1 == X))
    if l.isEmpty then dropInstrument X rest
    else (e.1, l) :: dropInstrument X rest

/-- The (chat id, condition) pairs on instrument `X` present in the
registry, in order. -/
def condsOn (X : String) : Registry → List (ℤ × WatchCondition)
  | [] => []
  | e :: rest =>
    (e.2.filter (fun c => c.1 == X)).map (fun c => (e.1, c)) ++ condsOn X rest

/-! ## Characterisation of the evaluation cycle -/

/-- Net effect of the removal steps of one inner loop on the live list. -/
def liveAfter (feed : String → Option ℚ) :
    List WatchCondition → List WatchCondition → List WatchCondition
  | [], live => live
  | a :: rest, live =>
    liveAfter feed rest (if satB feed a then removeFirst live a else live)

theorem checkChatLoop_eq (feed : String → Option ℚ) (cid : ℤ)
    (todo : List WatchCondition)
    (live : List WatchCondition) (evs : List TriggerEvent)
    (calls : List String) :
    checkChatLoop feed cid todo (live, evs, calls) =
      (liveAfter feed todo live,
       evs ++ (todo.filter (satB feed)).map (evOf feed cid),
       calls ++ todo.map Prod.fst) := by
  induction todo generalizing live evs calls with
  | nil => simp [checkChatLoop, liveAfter]
  | cons a rest ih =>
    rcases ha : feed a.1 with _ | p
    · simp [checkChatLoop, liveAfter, ha, ih, satB]
    · by_cases hp : a.2 ≤ p
      · simp [checkChatLoop, liveAfter, ha, hp, ih, satB, evOf]
      · simp [checkChatLoop, liveAfter, ha, hp, ih, satB]

theorem removeFirst_append_of_forall_ne (pre rest : List WatchCondition)
    (a : WatchCondition) (h : ∀ b ∈ pre, b ≠ a) :
    removeFirst (pre ++ a :: rest) a = pre ++ rest := by
  induction pre with
  | nil => simp [removeFirst]
  | cons b pre ih =>
    have hb : b ≠ a := h b (by simp)
    simp only [List.cons_append, removeFirst, if_neg hb, List.append_eq]
    rw [ih (fun x hx => h x (by simp [hx]))]

theorem liveAfter_eq_filter (feed : String → Option ℚ)
    (todo pre : List WatchCondition)
    (h : ∀ b ∈ pre, satB feed b = false) :
    liveAfter feed todo (pre ++ todo) =
      pre ++ todo.filter (fun c => !satB feed c) := by
  induction todo generalizing pre with
  | nil => simp [liveAfter]
  | cons a rest ih =>
    by_cases ha : satB feed a
    · have hpre : ∀ b ∈ pre, b ≠ a := by
        intro b hb hba
        have := h b hb
        rw [hba] at this
        rw [this] at ha
        exact Bool.false_ne_true ha
      simp only [liveAfter, if_pos ha,
        removeFirst_append_of_forall_ne pre rest a hpre]
      rw [ih pre h]
      simp [ha]
    · have : pre ++ a :: rest = (pre ++ [a]) ++ rest := by simp
      rw [liveAfter, if_neg ha, this,
        ih (pre ++ [a]) (by
          intro b hb
          rcases List.mem_append.mp hb with hb | hb
          · exact h b hb
          · simp only [List.mem_singleton] at hb
            subst hb
            exact Bool.eq_false_iff.mpr ha)]
      simp [ha]

/-- Master characterisation of one evaluation cycle: the resulting registry
keeps, per chat, exactly the unsatisfied conditions (chats left with none
are deleted); the events are one per satisfied condition occurrence, in
order; the feed is called once per condition occurrence, in order. -/
theorem check_alerts_eq (feed : String → Option ℚ) (reg : Registry) :
    check_alerts feed reg =
      (reg.filterMap (evalEntry feed),
       (reg.map (fun e => (e.2.filter (satB feed)).map (evOf feed e.1))).flatten,
       (reg.map (fun e => e.2.map Prod.fst)).flatten) := by
  induction reg with
  | nil => simp [check_alerts]
  | cons e rest ih =>
    obtain ⟨cid, alerts⟩ := e
    have hloop := checkChatLoop_eq feed cid alerts alerts [] []
    have hlive := liveAfter_eq_filter feed alerts [] (by simp)
    simp only [List.nil_append] at hlive
    simp only [check_alerts, hloop, hlive, ih, List.map_cons,
      List.flatten, List.nil_append]
    by_cases hemp : (alerts.filter (fun c => !satB feed c)).isEmpty
    · simp [hemp, List.filterMap_cons, evalEntry]
    · simp [hemp, List.filterMap_cons, evalEntry]

/-! ## C1: triggering iff price obtained and at or above target -/

/-- C1.  For every registry state and every price-feed response function,
one evaluation cycle emits a trigger event for a condition iff the feed
yielded a price for its instrument and that price is at or above the
target; the events are exactly one per satisfied condition occurrence, and
the resulting registry keeps exactly the unsatisfied occurrences (so a
condition is removed iff it is reported, and reported exactly once). -/
theorem trigger_iff_price_obtained_and_at_target
    (feed : String → Option ℚ) (reg : Registry) :
    (∀ c : WatchCondition, satB feed c = true ↔
      ∃ p, feed c.1 = some p ∧ c.2 ≤ p) ∧
    (check_alerts feed reg).2.1 =
      (reg.map (fun e => (e.2.filter (satB feed)).map (evOf feed e.1))).flatten ∧
    (check_alerts feed reg).1 = reg.filterMap (evalEntry feed) := by
  refine ⟨?_, ?_, ?_⟩
  · intro c
    constructor
    · intro hs
      unfold satB at hs
      rcases h : feed c.1 with _ | p
      · rw [h] at hs
        simp at hs
      · rw [h] at hs
        simp only [decide_eq_true_eq] at hs
        exact ⟨p, rfl, hs⟩
    · rintro ⟨p, hp, hle⟩
      unfold satB
      rw [hp]
      simpa using hle
  · rw [check_alerts_eq]
  · rw [check_alerts_eq]

/-- Witness for C1 at a concrete feed and registry: one chat watching
bitcoin at 50000 and ethereum at 10, the feed quoting bitcoin at 50500 and
nothing for ethereum. -/
def w1feed : String → Option ℚ :=
  fun s => if s = "bitcoin" then some 50500 else none

def w1reg : Registry := [(7, [("bitcoin", 50000), ("ethereum", 10)])]

theorem trigger_iff_price_obtained_and_at_target_witness :
    (check_alerts w1feed w1reg).2.1 = [(7, "bitcoin", 50500)] ∧
    (check_alerts w1feed w1reg).1 = [(7, [("ethereum", 10)])] := by
  constructor
  · rw [(trigger_iff_price_obtained_and_at_target w1feed w1reg).2.1]
    decide
  · rw [(trigger_iff_price_obtained_and_at_target w1feed w1reg).2.2]
    decide

/-! ## C2: feed calls are per condition occurrence, not per instrument -/

/-- Concrete inputs refuting the once-per-distinct-instrument claim: one
chat with two conditions on the same instrument, any feed. -/
def cexFeedC2 : String → Option ℚ := fun _ => none

def cexRegC2 : Registry := [(1, [("bitcoin", 1), ("bitcoin", 2)])]

/-- C2 counterexample.  In the snapshot `{1: [("bitcoin", 1),
("bitcoin", 2)]}` the distinct instrument "bitcoin" is fetched twice in
one cycle (once per condition occurrence), not exactly once: the code
calls `get_crypto_price` inside the per-alert loop. -/
theorem feed_called_per_condition_cex :
    (check_alerts cexFeedC2 cexRegC2).2.2.count "bitcoin" = 2 ∧
    ¬((check_alerts cexFeedC2 cexRegC2).2.2.count "bitcoin" = 1) := by
  constructor
  · decide
  · decide

/-- C2 amended.  During one evaluation cycle the feed is called exactly
once per condition occurrence in the snapshot, in iteration order — so an
instrument referenced by k conditions is fetched k times, not once. -/
theorem feed_called_once_per_condition_occurrence
    (feed : String → Option ℚ) (reg : Registry) :
    (check_alerts feed reg).2.2 =
      (reg.map (fun e => e.2.map Prod.fst)).flatten := by
  rw [check_alerts_eq]

/-! ## C3: no subscriber is ever mapped to an empty sequence -/

theorem noEmptyEntries_addCondition (reg : Registry) (cid : ℤ)
    (c : WatchCondition) (h : noEmptyEntries reg = true) :
    noEmptyEntries (addCondition reg cid c) = true := by
  induction reg with
  | nil => simp [addCondition, noEmptyEntries]
  | cons e rest ih =>
    obtain ⟨k, l⟩ := e
    simp only [noEmptyEntries, List.all_cons, Bool.and_eq_true] at h
    by_cases hk : k = cid
    · simp only [addCondition, if_pos hk, noEmptyEntries, List.all_cons,
        Bool.and_eq_true]
      exact ⟨by simp, h.2⟩
    · simp only [addCondition, if_neg hk, noEmptyEntries, List.all_cons,
        Bool.and_eq_true]
      exact ⟨h.1, ih h.2⟩

theorem noEmptyEntries_check_alerts (feed : String → Option ℚ)
    (reg : Registry) :
    noEmptyEntries (check_alerts feed reg).1 = true := by
  rw [check_alerts_eq]
  induction reg with
  | nil => simp [noEmptyEntries]
  | cons e rest ih =>
    simp only [List.filterMap_cons]
    rcases hE : evalEntry feed e with _ | e'
    · exact ih
    · unfold evalEntry at hE
      by_cases hemp : (e.2.filter (fun c => !satB feed c)).isEmpty
      · simp [hemp] at hE
      · simp only [hemp, if_neg, Bool.false_eq_true, not_false_eq_true,
          if_false] at hE
        injection hE with hE2
        subst hE2
        simp only [noEmptyEntries, List.all_cons, Bool.and_eq_true]
        exact ⟨by simpa using hemp, by simpa [noEmptyEntries] using ih⟩

/-- C3.  If the registry has no empty entry, then it still has none after
`/alert` adds a condition; and the registry produced by an evaluation
cycle never has an empty entry (a chat whose last condition was removed is
deleted before the cycle ends). -/
theorem no_empty_subscriber_entries (reg : Registry) (cid : ℤ)
    (c : WatchCondition) (feed : String → Option ℚ)
    (h : noEmptyEntries reg = true) :
    noEmptyEntries (addCondition reg cid c) = true ∧
    noEmptyEntries (check_alerts feed reg).1 = true :=
  ⟨noEmptyEntries_addCondition reg cid c h,
   noEmptyEntries_check_alerts feed reg⟩

/-- Witness for C3 at a concrete registry, feed and added condition. -/
theorem no_empty_subscriber_entries_witness :
    noEmptyEntries (addCondition [(1, [("btc", 1)])] 2 ("eth", 5)) = true ∧
    noEmptyEntries (check_alerts w1feed [(1, [("btc", 1)])]).1 = true :=
  no_empty_subscriber_entries [(1, [("btc", 1)])] 2 ("eth", 5) w1feed
    (by decide)

/-! ## C4: an unavailable instrument is isolated -/

theorem satB_removeInstrument (X : String) (feed : String → Option ℚ)
    (c : WatchCondition) :
    satB (removeInstrument X feed) c = (!(c.1 == X) && satB feed c) := by
  unfold satB removeInstrument
  by_cases h : c.1 = X
  · simp [h]
  · simp [h]

theorem evOf_removeInstrument (X : String) (feed : String → Option ℚ)
    (cid : ℤ) (c : WatchCondition) (h : (c.1 == X) = false) :
    evOf (removeInstrument X feed) cid c = evOf feed cid c := by
  unfold evOf removeInstrument
  simp [beq_eq_false_iff_ne.mp h]

theorem c4_sat_filter (X : String) (feed : String → Option ℚ)
    (as : List WatchCondition) :
    as.filter (satB (removeInstrument X feed)) =
      (as.filter (fun c => !(c.1 == X))).filter (satB feed) := by
  rw [List.filter_filter]
  refine List.filter_congr ?_
  intro c _
  rw [satB_removeInstrument]
  cases hP : (c.1 == X) <;> cases hS : satB feed c <;> simp [hP, hS]

theorem c4_keep_filter (X : String) (feed : String → Option ℚ)
    (as : List WatchCondition) :
    (as.filter (fun c => !satB (removeInstrument X feed) c)).filter
        (fun c => !(c.1 == X)) =
      as.filter (fun c => !(c.1 == X) && !satB feed c) := by
  rw [List.filter_filter]
  refine List.filter_congr ?_
  intro c _
  rw [satB_removeInstrument]
  cases hP : (c.1 == X) <;> cases hS : satB feed c <;> simp [hP, hS]

theorem c4_drop_then_eval (X : String) (feed : String → Option ℚ)
    (as : List WatchCondition) :
    (as.filter (fun c => !(c.1 == X))).filter (fun c => !satB feed c) =
      as.filter (fun c => !(c.1 == X) && !satB feed c) := by
  rw [List.filter_filter]
  refine List.filter_congr ?_
  intro c _
  cases hP : (c.1 == X) <;> cases hS : satB feed c <;> simp [hP, hS]

theorem c4_X_part (X : String) (feed : String → Option ℚ)
    (as : List WatchCondition) :
    (as.filter (fun c => !satB (removeInstrument X feed) c)).filter
        (fun c => c.1 == X) =
      as.filter (fun c => c.1 == X) := by
  rw [List.filter_filter]
  refine List.filter_congr ?_
  intro c _
  rw [satB_removeInstrument]
  cases hP : (c.1 == X) <;> simp [hP]

theorem c4_nil_X_part (X : String) (feed : String → Option ℚ)
    (as : List WatchCondition)
    (h : as.filter (fun c => !satB (removeInstrument X feed) c) = []) :
    as.filter (fun c => c.1 == X) = [] := by
  rw [← c4_X_part X feed as, h, List.filter_nil]

/-- C4.  Making one instrument `X` unavailable changes nothing else in a
cycle: the events emitted, and the non-`X` part of the resulting registry,
are exactly those of a cycle run on the registry with `X`-conditions
erased; and every condition on `X` survives the cycle unchanged (with its
subscriber). -/
theorem unavailable_instrument_isolated (feed : String → Option ℚ)
    (X : String) (reg : Registry) :
    (check_alerts (removeInstrument X feed) reg).2.1 =
      (check_alerts feed (dropInstrument X reg)).2.1 ∧
    dropInstrument X (check_alerts (removeInstrument X feed) reg).1 =
      (check_alerts feed (dropInstrument X reg)).1 ∧
    condsOn X (check_alerts (removeInstrument X feed) reg).1 =
      condsOn X reg := by
  simp only [check_alerts_eq]
  refine ⟨?_, ?_, ?_⟩
  · induction reg with
    | nil => simp [dropInstrument]
    | cons e rest ih =>
      obtain ⟨cid, as⟩ := e
      simp only [List.map_cons, List.flatten_cons, dropInstrument]
      by_cases hemp : (as.filter (fun c => !(c.1 == X))).isEmpty
      · have h1 : as.filter (satB (removeInstrument X feed)) = [] := by
          rw [c4_sat_filter X feed as, List.isEmpty_iff.mp hemp,
            List.filter_nil]
        simp only [hemp, if_pos, h1, List.map_nil, List.nil_append]
        exact ih
      · have h2 : (as.filter (satB (removeInstrument X feed))).map
            (evOf (removeInstrument X feed) cid) =
            ((as.filter (fun c => !(c.1 == X))).filter (satB feed)).map
              (evOf feed cid) := by
          rw [← c4_sat_filter X feed as]
          refine List.map_congr_left ?_
          intro c hc
          have hs := (List.mem_filter.mp hc).2
          rw [satB_removeInstrument] at hs
          have hcX : (c.1 == X) = false := by
            cases hP : (c.1 == X)
            · rfl
            · rw [hP] at hs
              simp at hs
          exact evOf_removeInstrument X feed cid c hcX
        simp only [hemp, if_neg, Bool.false_eq_true, not_false_eq_true,
          if_false, List.map_cons, List.flatten_cons]
        rw [h2, ih]
  · induction reg with
    | nil => simp [dropInstrument]
    | cons e rest ih =>
      obtain ⟨cid, as⟩ := e
      simp only [List.filterMap_cons, dropInstrument]
      by_cases hl1 : (as.filter (fun c => !satB (removeInstrument X feed) c)).isEmpty
      · have hl1' := List.isEmpty_iff.mp hl1
        have hl2 : as.filter (fun c => !(c.1 == X) && !satB feed c) = [] := by
          rw [← c4_keep_filter X feed as, hl1', List.filter_nil]
        have hEnone : evalEntry (removeInstrument X feed) (cid, as) = none := by
          unfold evalEntry
          simp [hl1]
        rw [hEnone]
        by_cases hl' : (as.filter (fun c => !(c.1 == X))).isEmpty
        · simp only [hl', if_pos]
          exact ih
        · simp only [hl', if_neg, Bool.false_eq_true, not_false_eq_true,
            if_false, List.filterMap_cons]
          have : evalEntry feed (cid, as.filter (fun c => !(c.1 == X))) = none := by
            unfold evalEntry
            simp [c4_drop_then_eval X feed as, hl2]
          rw [this]
          exact ih
      · have hEsome : evalEntry (removeInstrument X feed) (cid, as) =
            some (cid, as.filter (fun c => !satB (removeInstrument X feed) c)) := by
          unfold evalEntry
          simp [hl1]
        rw [hEsome]
        simp only [dropInstrument]
        by_cases hl2 : (as.filter (fun c => !(c.1 == X) && !satB feed c)).isEmpty
        · have hl2' := List.isEmpty_iff.mp hl2
          have hfst : ((as.filter (fun c => !satB (removeInstrument X feed) c)).filter
              (fun c => !(c.1 == X))).isEmpty := by
            rw [c4_keep_filter X feed as, hl2']
            rfl
          simp only [hfst, if_pos]
          by_cases hl' : (as.filter (fun c => !(c.1 == X))).isEmpty
          · simp only [hl', if_pos]
            exact ih
          · simp only [hl', if_neg, Bool.false_eq_true, not_false_eq_true,
              if_false, List.filterMap_cons]
            have : evalEntry feed (cid, as.filter (fun c => !(c.1 == X))) = none := by
              unfold evalEntry
              simp [c4_drop_then_eval X feed as, hl2']
            rw [this]
            exact ih
        · have hl2' : ¬((as.filter (fun c => !satB (removeInstrument X feed) c)).filter
              (fun c => !(c.1 == X))).isEmpty := by
            rw [c4_keep_filter X feed as]
            exact hl2
          have hl'ne : ¬(as.filter (fun c => !(c.1 == X))).isEmpty := by
            intro hco
            apply hl2
            rw [← c4_drop_then_eval X feed as, List.isEmpty_iff.mp hco]
            rfl
          simp only [hl2', if_neg, Bool.false_eq_true, not_false_eq_true,
            if_false, hl'ne, List.filterMap_cons]
          have : evalEntry feed (cid, as.filter (fun c => !(c.1 == X))) =
              some (cid, as.filter (fun c => !(c.1 == X) && !satB feed c)) := by
            unfold evalEntry
            simp only [c4_drop_then_eval X feed as]
            simp [hl2]
          rw [this, c4_keep_filter X feed as, ih]
  · induction reg with
    | nil => simp [condsOn]
    | cons e rest ih =>
      obtain ⟨cid, as⟩ := e
      simp only [List.filterMap_cons, condsOn]
      by_cases hl1 : (as.filter (fun c => !satB (removeInstrument X feed) c)).isEmpty
      · have hEnone : evalEntry (removeInstrument X feed) (cid, as) = none := by
          unfold evalEntry
          simp [hl1]
        rw [hEnone,
          c4_nil_X_part X feed as (List.isEmpty_iff.mp hl1)]
        simpa using ih
      · have hEsome : evalEntry (removeInstrument X feed) (cid, as) =
            some (cid, as.filter (fun c => !satB (removeInstrument X feed) c)) := by
          unfold evalEntry
          simp [hl1]
        rw [hEsome]
        simp only [condsOn, c4_X_part X feed as]
        rw [ih]

/-- Witness inputs for C4: a feed quoting both instruments, a registry
with bitcoin and ethereum conditions across two chats. -/
def w4feed : String → Option ℚ :=
  fun s => if s = "ethereum" then some 100 else if s = "bitcoin" then some 10 else none

def w4reg : Registry :=
  [(1, [("bitcoin", 5), ("ethereum", 50)]), (2, [("bitcoin", 7)])]

theorem unavailable_instrument_isolated_witness :
    (check_alerts (removeInstrument "bitcoin" w4feed) w4reg).2.1 =
      [(1, "ethereum", 100)] ∧
    dropInstrument "bitcoin"
        (check_alerts (removeInstrument "bitcoin" w4feed) w4reg).1 = [] ∧
    condsOn "bitcoin"
        (check_alerts (removeInstrument "bitcoin" w4feed) w4reg).1 =
      [(1, ("bitcoin", 5)), (2, ("bitcoin", 7))] := by
  have h := unavailable_instrument_isolated w4feed "bitcoin" w4reg
  refine ⟨?_, ?_, ?_⟩
  · rw [h.1]
    decide
  · rw [h.2.1]
    decide
  · rw [h.2.2]
    decide

/-! ## C5: positivity of the target is not validated -/

/-- C5 counterexample.  For `/alert bitcoin -5` the target parses as the
number −5, which is not positive, yet the handler mutates the registry and
confirms instead of rejecting: the code never checks the sign. -/
theorem positive_target_not_validated_cex :
    parseFloat "-5" = some (-5) ∧ ¬(0 < (-5 : ℚ)) ∧
    alert [] 1 ["bitcoin", "-5"] =
      ([(1, [("bitcoin", -5)])], .confirmed "bitcoin" (-5)) := by
  refine ⟨by decide, by norm_num, by decide⟩

/-- C5 amended.  The handler validates only that the target parses as a
number: a non-parseable target is rejected with a user-facing error reply
and the registry is unchanged, while a parseable target — positive or
not — is always added and confirmed. -/
theorem condition_added_iff_target_parses (reg : Registry) (chat_id : ℤ)
    (a0 a1 : String) :
    (parseFloat a1 = none → alert reg chat_id [a0, a1] = (reg, .notNumber)) ∧
    (∀ t, parseFloat a1 = some t →
      alert reg chat_id [a0, a1] =
        (addCondition reg chat_id (lowerString a0, t), .confirmed (lowerString a0) t)) := by
  constructor
  · intro h
    simp [alert, h]
  · intro t h
    simp [alert, h]

theorem condition_added_iff_target_parses_witness :
    alert [] 1 ["Bitcoin", "7"] =
      ([(1, [("bitcoin", 7)])], .confirmed "bitcoin" 7) ∧
    alert [] 1 ["Bitcoin", "x7"] = ([], .notNumber) := by
  have h := condition_added_iff_target_parses [] 1 "Bitcoin" "7"
  have h2 := condition_added_iff_target_parses [] 1 "Bitcoin" "x7"
  constructor
  · rw [h.2 7 (by decide)]
    decide
  · exact h2.1 (by decide)

/-! ## C6: malformed `/alert` commands do not mutate the registry -/

/-- C6.  A `/alert` command with the wrong number of arguments gets the
usage reply, and one with a non-numeric target gets the
target-must-be-a-number reply; in both cases the registry is returned
completely unchanged. -/
theorem malformed_alert_replies_and_preserves_registry (reg : Registry)
    (chat_id : ℤ) (args : List String) :
    (args.length ≠ 2 → alert reg chat_id args = (reg, .usage)) ∧
    (∀ a0 a1, args = [a0, a1] → parseFloat a1 = none →
      alert reg chat_id args = (reg, .notNumber)) := by
  constructor
  · intro h
    rcases args with _ | ⟨a0, _ | ⟨a1, _ | ⟨a2, rest⟩⟩⟩
    · rfl
    · rfl
    · exact absurd rfl h
    · rfl
  · rintro a0 a1 rfl h
    simp [alert, h]

theorem malformed_alert_replies_and_preserves_registry_witness :
    alert [(2, [("btc", 1)])] 2 ["bitcoin"] =
      ([(2, [("btc", 1)])], .usage) ∧
    alert [] 3 ["bitcoin", "abc"] = ([], .notNumber) :=
  ⟨(malformed_alert_replies_and_preserves_registry _ 2 ["bitcoin"]).1
      (by decide),
   (malformed_alert_replies_and_preserves_registry _ 3
      ["bitcoin", "abc"]).2 "bitcoin" "abc" rfl (by decide)⟩

/-! ## C7: fetchPrice outcomes -/

/-- C7 counterexample.  A 200 response whose body quotes −1 for
(bitcoin, usd) makes `get_crypto_price` return −1: the function forwards
whatever number the body holds and never checks non-negativity, so the
result is neither a non-negative number nor Unavailable. -/
theorem fetch_price_forwards_negative_quote_cex :
    get_crypto_price (.ok 200 [("bitcoin", [("usd", -1)])]) "bitcoin" "usd" =
      some (-1) ∧ (-1 : ℚ) < 0 := by
  refine ⟨by decide, by norm_num⟩

/-- C7 amended.  `get_crypto_price` returns the value found in the
response body for the requested instrument and currency — whatever its
sign — and returns Unavailable (`None`, never an exception or a stale
value) on a network failure, on a 4xx/5xx status (the statuses
`raise_for_status` raises on), or when the instrument or currency key is
missing from the body. -/
theorem fetch_price_unavailable_conditions (resp : HttpResult)
    (cid cur : String) :
    (resp = .netError → get_crypto_price resp cid cur = none) ∧
    (∀ status body, resp = .ok status body → 400 ≤ status → status < 600 →
      get_crypto_price resp cid cur = none) ∧
    (∀ status body, resp = .ok status body → ¬(400 ≤ status ∧ status < 600) →
      get_crypto_price resp cid cur =
        ((body.lookup cid).getD []).lookup cur) ∧
    (∀ status body, resp = .ok status body → body.lookup cid = none →
      get_crypto_price resp cid cur = none) ∧
    (∀ status body d, resp = .ok status body → body.lookup cid = some d →
      d.lookup cur = none → get_crypto_price resp cid cur = none) := by
  refine ⟨?_, ?_, ?_, ?_, ?_⟩
  · rintro rfl
    rfl
  · rintro status body rfl h4 h6
    simp [get_crypto_price, get_crypto_price_try, raise_for_status, h4, h6]
  · rintro status body rfl h
    simp [get_crypto_price, get_crypto_price_try, raise_for_status, h]
  · rintro status body rfl hkey
    by_cases h : 400 ≤ status ∧ status < 600
    · simp [get_crypto_price, get_crypto_price_try, raise_for_status, h]
    · simp [get_crypto_price, get_crypto_price_try, raise_for_status, h, hkey]
  · rintro status body d rfl hkey hcur
    by_cases h : 400 ≤ status ∧ status < 600
    · simp [get_crypto_price, get_crypto_price_try, raise_for_status, h]
    · simp [get_crypto_price, get_crypto_price_try, raise_for_status, h,
        hkey, hcur]

theorem fetch_price_unavailable_conditions_witness :
    get_crypto_price .netError "btc" "usd" = none ∧
    get_crypto_price (.ok 404 [("btc", [("usd", 3)])]) "btc" "usd" = none ∧
    get_crypto_price (.ok 200 [("btc", [("usd", 3)])]) "btc" "usd" = some 3 ∧
    get_crypto_price (.ok 200 []) "btc" "usd" = none ∧
    get_crypto_price (.ok 200 [("btc", [])]) "btc" "usd" = none := by
  refine ⟨(fetch_price_unavailable_conditions .netError "btc" "usd").1 rfl,
    (fetch_price_unavailable_conditions _ "btc" "usd").2.1 404 _ rfl
      (by norm_num) (by norm_num),
    ?_,
    (fetch_price_unavailable_conditions _ "btc" "usd").2.2.2.1 200 [] rfl
      (by decide),
    (fetch_price_unavailable_conditions _ "btc" "usd").2.2.2.2 200 _ [] rfl
      (by decide) (by decide)⟩
  have h := (fetch_price_unavailable_conditions
    (.ok 200 [("btc", [("usd", 3)])]) "btc" "usd").2.2.1 200 _ rfl (by decide)
  rw [h]
  decide

/-! ## C8: duplicate conditions are tracked and fired independently -/

theorem addCondition_fresh (reg : Registry) (cid : ℤ) (c : WatchCondition)
    (h : ∀ e ∈ reg, e.1 ≠ cid) :
    addCondition reg cid c = reg ++ [(cid, [c])] := by
  induction reg with
  | nil => rfl
  | cons e rest ih =>
    obtain ⟨k, l⟩ := e
    have hk : k ≠ cid := h (k, l) (by simp)
    simp only [addCondition, if_neg hk, List.cons_append]
    rw [ih (fun x hx => h x (by simp [hx]))]

theorem addCondition_snoc (reg : Registry) (cid : ℤ)
    (l : List WatchCondition) (c : WatchCondition)
    (h : ∀ e ∈ reg, e.1 ≠ cid) :
    addCondition (reg ++ [(cid, l)]) cid c = reg ++ [(cid, l ++ [c])] := by
  induction reg with
  | nil => simp [addCondition]
  | cons e rest ih =>
    obtain ⟨k, l'⟩ := e
    have hk : k ≠ cid := h (k, l') (by simp)
    simp only [List.cons_append, addCondition, if_neg hk, List.append_eq]
    rw [ih (fun x hx => h x (by simp [hx]))]

theorem lookup_snoc (reg : Registry) (cid : ℤ) (l : List WatchCondition)
    (h : ∀ e ∈ reg, e.1 ≠ cid) :
    (reg ++ [(cid, l)]).lookup cid = some l := by
  induction reg with
  | nil => simp [List.lookup]
  | cons e rest ih =>
    obtain ⟨k, l'⟩ := e
    have hk : k ≠ cid := h (k, l') (by simp)
    have hbeq : (cid == k) = false :=
      beq_eq_false_iff_ne.mpr (fun hh => hk hh.symm)
    simp only [List.cons_append, List.lookup, hbeq]
    exact ih (fun x hx => h x (by simp [hx]))

/-- C8.  Adding the same (instrument, target) pair twice for a subscriber
not yet in the registry stores two independent entries; when the feed
quotes a price at or above the target, one cycle removes both (the
subscriber's entry disappears if it held nothing else) and emits one
trigger event per entry — two events total. -/
theorem duplicate_conditions_independent (reg : Registry) (cid : ℤ)
    (c : WatchCondition) (feed : String → Option ℚ) (p : ℚ)
    (hfresh : ∀ e ∈ reg, e.1 ≠ cid)
    (hp : feed c.1 = some p) (hge : c.2 ≤ p) :
    condsOf (addCondition (addCondition reg cid c) cid c) cid = [c, c] ∧
    (check_alerts feed (addCondition (addCondition reg cid c) cid c)).1 =
      (check_alerts feed reg).1 ∧
    (check_alerts feed (addCondition (addCondition reg cid c) cid c)).2.1 =
      (check_alerts feed reg).2.1 ++ [(cid, c.1, p), (cid, c.1, p)] := by
  have hadd : addCondition (addCondition reg cid c) cid c =
      reg ++ [(cid, [c, c])] := by
    rw [addCondition_fresh reg cid c hfresh,
      addCondition_snoc reg cid [c] c hfresh]
    rfl
  have hsat : satB feed c = true := by
    unfold satB
    rw [hp]
    simpa using hge
  refine ⟨?_, ?_, ?_⟩
  · rw [hadd]
    unfold condsOf
    rw [lookup_snoc reg cid [c, c] hfresh]
    rfl
  · rw [hadd]
    simp only [check_alerts_eq, List.filterMap_append]
    have hlast : List.filterMap (evalEntry feed) [(cid, [c, c])] = [] := by
      simp [evalEntry, hsat]
    rw [hlast, List.append_nil]
  · rw [hadd]
    simp only [check_alerts_eq, List.map_append, List.flatten_append]
    congr 1
    simp [hsat, evOf, hp]

def w8feed : String → Option ℚ :=
  fun s => if s = "bitcoin" then some 50500 else none

theorem duplicate_conditions_independent_witness :
    condsOf (addCondition (addCondition [] 1 ("bitcoin", 50000)) 1
      ("bitcoin", 50000)) 1 = [("bitcoin", 50000), ("bitcoin", 50000)] ∧
    (check_alerts w8feed (addCondition (addCondition [] 1
      ("bitcoin", 50000)) 1 ("bitcoin", 50000))).1 = [] ∧
    (check_alerts w8feed (addCondition (addCondition [] 1
      ("bitcoin", 50000)) 1 ("bitcoin", 50000))).2.1 =
      [(1, "bitcoin", 50500), (1, "bitcoin", 50500)] := by
  have h := duplicate_conditions_independent [] 1 ("bitcoin", 50000) w8feed
    50500 (by simp) (by decide) (by decide)
  exact ⟨h.1, by rw [h.2.1]; decide, by rw [h.2.2]; decide⟩

/-! ## C10: instruments are lowercased before any use -/

/-- C10.  In `/price` the single instrument sent to the feed is the
lowercased argument, and in `/alert` the condition stored in the registry
carries the lowercased argument as its instrument — so every identifier
stored or queried is the lowercase form of the user's input. -/
theorem instrument_lowercased (feed : String → Option ℚ) (reg : Registry)
    (chat_id : ℤ) (a0 a1 : String) (t : ℚ) :
    (price feed [a0]).2 = [lowerString a0] ∧
    (parseFloat a1 = some t →
      alert reg chat_id [a0, a1] =
        (addCondition reg chat_id (lowerString a0, t),
         .confirmed (lowerString a0) t)) := by
  constructor
  · unfold price
    rcases h : feed (lowerString a0) with _ | p
    · simp [h]
    · simp [h]
  · intro h
    simp [alert, h]

theorem instrument_lowercased_witness :
    (price w1feed ["BitCoin"]).2 = ["bitcoin"] ∧
    alert [] 1 ["DogeCoin", "25"] =
      ([(1, [("dogecoin", 25)])], .confirmed "dogecoin" 25) := by
  constructor
  · rw [(instrument_lowercased w1feed [] 1 "BitCoin" "25" 25).1]
    decide
  · rw [(instrument_lowercased w1feed [] 1 "DogeCoin" "25" 25).2
      (by decide)]
    decide
